import Mathlib

/-!
Verification of the `flask_wtf_top` form-handling layer.

The single source module defines a conditional-requirement validator
(`required_if` / `check_field`) and a `ToppingForm` class with
field classification (`filter_fields`, `html_fields`, ...), file
extraction with dedup (`get_file` / `get_files` / `parse_files`),
value normalization (`parse_form`) and class-hierarchy configuration
resolution (`get_attrs`).

The embedding below translates those operations into pure Lean
functions.  External collaborators are parameters:
* the filename sanitizer (`werkzeug.utils.secure_filename`) is an
  arbitrary function `sanitize : String → String`;
* the request's uploaded files (`request.files.getlist`) is a function
  `reqFiles : String → List UploadEntry`;
* the application configuration's CSRF field name is an
  `Option String`.

Python values bound to fields are modelled by the inductive `Value`
(absent / string / integer / boolean) with Python truthiness; Python
exceptions are modelled by `Except PyErr`.
-/

set_option autoImplicit false

namespace FlaskWtfTop

/-- Python `s.strip()`: remove leading and trailing whitespace.  (Modelled on
the character list so that it evaluates inside the kernel.) -/
def pyStrip (s : String) : String :=
  String.mk (((s.data.dropWhile Char.isWhitespace).reverse.dropWhile
    Char.isWhitespace).reverse)

/-- Python `s.lower()`. -/
def pyLower (s : String) : String := String.mk (s.data.map Char.toLower)

/-- Python `s.upper()`. -/
def pyUpper (s : String) : String := String.mk (s.data.map Char.toUpper)

/-- Python `s.endswith(suffix)`. -/
def pyEndsWith (s suffix : String) : Bool := suffix.data.isSuffixOf s.data

/-- Python `s.startswith(pre)`. -/
def pyStartsWith (s pre : String) : Bool := pre.data.isPrefixOf s.data

/-- A Python value bound to a form field: `None`, a string, an int or a bool. -/
inductive Value where
  | none
  | str (s : String)
  | int (n : Int)
  | bool (b : Bool)
deriving DecidableEq

/-- Python truthiness for the modelled values. -/
def truthy : Value → Bool
  | Value.none => false
  | Value.str s => s ≠ ""
  | Value.int n => n ≠ 0
  | Value.bool b => b

/-- A WTForms field as this layer sees it: a `name`, a type tag (`type` in
Python, e.g. `"StringField"`, `"SubmitField"`) and the bound `data`. -/
structure FField where
  name : String
  ftype : String
  data : Value
deriving DecidableEq

/-- `FILE_FIELDS = {"FileField", "MultipleFileField"}` from the source. -/
def FILE_FIELDS : List String := ["FileField", "MultipleFileField"]

/-- `NON_VALUE_FIELDS = {"SubmitField"} | FILE_FIELDS` from the source. -/
def NON_VALUE_FIELDS : List String := "SubmitField" :: FILE_FIELDS

/-- `NON_HTML_FIELDS` tuple from the source. -/
def NON_HTML_FIELDS : List String :=
  ["SubmitField", "CSRFTokenField", "HiddenField", "FormField", "FieldList"]

/-- `ToppingForm.filter_fields(field_types, contains)`: a bare string is
wrapped into a one-element tuple, then field names are kept according to
whether their type tag is (or is not) in the tuple.  The `Sum` argument
models the Python union `str | tuple`. -/
def filter_fields (form : List FField) (field_types : Sum String (List String))
    (contains : Bool) : List String :=
  let types : List String :=
    match field_types with
    | Sum.inl s => [s]
    | Sum.inr l => l
  if contains then
    (form.filter (fun fid => fid.ftype ∈ types)).map (fun fid => fid.name)
  else
    (form.filter (fun fid => fid.ftype ∉ types)).map (fun fid => fid.name)

/-- `ToppingForm.html_fields`: the fields whose type is not in `NON_HTML_FIELDS`. -/
def html_fields (form : List FField) : List String :=
  filter_fields form (Sum.inr NON_HTML_FIELDS) false

/-- An uploaded entry from `request.files.getlist(name)`: a filename plus an
opaque stream identifier.  A werkzeug `FileStorage` is truthy exactly when its
filename is non-empty, so `fo and fo.filename` is modelled as
`fo.filename ≠ ""`. -/
structure UploadEntry where
  filename : String
  stream : Nat
deriving DecidableEq

/-- The descriptor built by `ToppingForm.get_file`. -/
structure FileInfo where
  file : UploadEntry
  filename : String
  secure_filename : String
deriving DecidableEq

/-- `ToppingForm.get_file(fo)`. -/
def get_file (sanitize : String → String) (fo : UploadEntry) : FileInfo :=
  { file := fo, filename := fo.filename, secure_filename := sanitize fo.filename }

/-- One iteration of the loop body of `ToppingForm.get_files`: the accumulator
is the pair (files collected so far, set of secure filenames seen so far). -/
def get_files_step (sanitize : String → String)
    (acc : List FileInfo × List String) (fo : UploadEntry) :
    List FileInfo × List String :=
  if fo.filename ≠ "" then
    let info := get_file sanitize fo
    let files :=
      if info.secure_filename ∈ acc.2 then acc.1
      else acc.1 ++ [get_file sanitize fo]
    (files, acc.2 ++ [info.secure_filename])
  else acc

/-- `ToppingForm.get_files(name)` applied to the entries submitted under that
name: drop entries with an empty filename, keep the first entry per secure
filename, preserving submission order. -/
def get_files (sanitize : String → String) (entries : List UploadEntry) :
    List FileInfo :=
  (entries.foldl (get_files_step sanitize) ([], [])).1

/-- Specification-style dedup: keep each element whose key has not occurred
on an earlier kept element; equivalently, keep the head and recurse on the
tail with the head's key filtered out. -/
def firstWithKey {α β : Type} [DecidableEq β] (key : α → β) : List α → List α
  | [] => []
  | a :: rest => a :: firstWithKey key (rest.filter (fun b => key b ≠ key a))
termination_by l => l.length
decreasing_by
  simpa using Nat.lt_succ_of_le (List.length_filter_le _ rest)

/-- Recursive restatement of `get_files`'s loop, threading the seen-set
explicitly (used to relate the fold to `firstWithKey`). -/
def extractAux (sanitize : String → String) :
    List UploadEntry → List String → List FileInfo
  | [], _ => []
  | fo :: rest, seen =>
    if fo.filename = "" then extractAux sanitize rest seen
    else if sanitize fo.filename ∈ seen then
      extractAux sanitize rest (seen ++ [sanitize fo.filename])
    else
      get_file sanitize fo :: extractAux sanitize rest (seen ++ [sanitize fo.filename])

/-- A Python exception raised by the modelled code. -/
inductive PyErr where
  | validationError (msg : String)
  | attributeError (name : String)
  | typeError
deriving DecidableEq

instance {ε α : Type} [DecidableEq ε] [DecidableEq α] : DecidableEq (Except ε α) :=
  fun x y =>
  match x, y with
  | Except.ok a, Except.ok b =>
    if h : a = b then Decidable.isTrue (by rw [h])
    else Decidable.isFalse (fun hc => h (Except.ok.inj hc))
  | Except.error a, Except.error b =>
    if h : a = b then Decidable.isTrue (by rw [h])
    else Decidable.isFalse (fun hc => h (Except.error.inj hc))
  | Except.ok _, Except.error _ => Decidable.isFalse (fun hc => Except.noConfusion hc)
  | Except.error _, Except.ok _ => Decidable.isFalse (fun hc => Except.noConfusion hc)

/-- `getattr(form, name)` restricted to field lookup: the first field with
that name, or an `AttributeError` signalled by `Option.none`. -/
def find_field (form : List FField) (name : String) : Option FField :=
  form.find? (fun f => f.name = name)

/-- `data.strip()` applied when the value is a string (Python
`isinstance(data, str)`), otherwise the value unchanged. -/
def trimIfStr : Value → Value
  | Value.str s => Value.str (pyStrip s)
  | v => v

/-- Comparison on the modelled values: defined on two ints or two strings,
`TypeError` otherwise (as Python comparison operators raise on mixed types). -/
def cmpVals (f : Int → Int → Bool) (g : String → String → Bool) :
    Value → Value → Except PyErr Value
  | Value.int a, Value.int b => Except.ok (Value.bool (f a b))
  | Value.str a, Value.str b => Except.ok (Value.bool (g a b))
  | _, _ => Except.error PyErr.typeError

/-- `getattr(operator, op_, None)`: the standard binary operators of the
`operator` module that this model covers.  `eq`/`ne` are total (Python `==`
on mismatched types yields `False`); the order comparisons require two ints
or two strings. -/
def stdOp (op : String) : Option (Value → Value → Except PyErr Value) :=
  match op with
  | "eq" => Option.some (fun a b => Except.ok (Value.bool (decide (a = b))))
  | "ne" => Option.some (fun a b => Except.ok (Value.bool (decide (a ≠ b))))
  | "lt" => Option.some (cmpVals (fun a b => decide (a < b)) (fun a b => decide (a < b)))
  | "le" => Option.some (cmpVals (fun a b => decide (a ≤ b)) (fun a b => decide (a ≤ b)))
  | "gt" => Option.some (cmpVals (fun a b => decide (a > b)) (fun a b => decide (a > b)))
  | "ge" => Option.some (cmpVals (fun a b => decide (a ≥ b)) (fun a b => decide (a ≥ b)))
  | _ => Option.none

/-- `getattr(depend_data, op_)(val)`: the dynamic method-call fallback, for
the string methods this model covers; anything else is an `AttributeError`. -/
def dynMethod (v : Value) (meth : String) (arg : Value) : Except PyErr Value :=
  match v, meth, arg with
  | Value.str s, "startswith", Value.str p => Except.ok (Value.bool (pyStartsWith s p))
  | Value.str s, "endswith", Value.str p => Except.ok (Value.bool (pyEndsWith s p))
  | _, _, _ => Except.error (PyErr.attributeError meth)

/-- Evaluate the resolved operator on the (possibly trimmed) dependency value:
`func and func(depend_data, val)` when the standard operator exists, otherwise
`getattr(depend_data, op_)(val)`; the check counts when the result is truthy. -/
def applyOp (op : String) (dd val : Value) : Except PyErr Bool :=
  match stdOp op with
  | Option.some f => do
    let r ← f dd val
    pure (truthy r)
  | Option.none => do
    let r ← dynMethod dd op val
    pure (truthy r)

/-- One check `(dep_name, op_, val)` of `required_if.check_field`, exactly as
the source evaluates it: look up the dependency field, trim its string value
when the TARGET field's type (`field.type` in the source) is not
`"PasswordField"`, then require truthiness of the value and a non-empty
operator name before evaluating the operator. -/
def eval_check (form : List FField) (targetType : String)
    (chk : String × String × Value) : Except PyErr Bool :=
  match find_field form chk.1 with
  | Option.none => Except.error (PyErr.attributeError chk.1)
  | Option.some depf =>
    let dd := depf.data
    let dd :=
      match dd with
      | Value.str s => if targetType ≠ "PasswordField" then Value.str (pyStrip s) else Value.str s
      | v => v
    if truthy dd ∧ chk.2.1 ≠ "" then applyOp chk.2.1 dd chk.2.2
    else pure false

/-- The spec's reading of the same check: the trim decision consults the
DEPENDENCY field's type instead of the target field's.  (Refinement
definition written from the spec's words, for comparison with
`eval_check`.) -/
def eval_check_dep_trim (form : List FField)
    (chk : String × String × Value) : Except PyErr Bool :=
  match find_field form chk.1 with
  | Option.none => Except.error (PyErr.attributeError chk.1)
  | Option.some depf =>
    let dd := depf.data
    let dd :=
      match dd with
      | Value.str s => if depf.ftype ≠ "PasswordField" then Value.str (pyStrip s) else Value.str s
      | v => v
    if truthy dd ∧ chk.2.1 ≠ "" then applyOp chk.2.1 dd chk.2.2
    else pure false

/-- Variant of the check that always trims string dependency values. -/
def eval_check_all_trim (form : List FField)
    (chk : String × String × Value) : Except PyErr Bool :=
  match find_field form chk.1 with
  | Option.none => Except.error (PyErr.attributeError chk.1)
  | Option.some depf =>
    let dd := trimIfStr depf.data
    if truthy dd ∧ chk.2.1 ≠ "" then applyOp chk.2.1 dd chk.2.2
    else pure false

/-- Variant of the check that never trims the dependency value. -/
def eval_check_no_trim (form : List FField)
    (chk : String × String × Value) : Except PyErr Bool :=
  match find_field form chk.1 with
  | Option.none => Except.error (PyErr.attributeError chk.1)
  | Option.some depf =>
    let dd := depf.data
    if truthy dd ∧ chk.2.1 ≠ "" then applyOp chk.2.1 dd chk.2.2
    else pure false

/-- The `logics` counter of `check_field`: run the checks in order, counting
the satisfied ones; the first raised exception aborts the loop. -/
def run_checks (ev : String × String × Value → Except PyErr Bool) :
    List (String × String × Value) → Nat → Except PyErr Nat
  | [], n => Except.ok n
  | c :: rest, n => do
    let b ← ev c
    run_checks ev rest (if b then n + 1 else n)

/-- The configuration captured by the `required_if` factory. -/
structure RIConfig where
  depend_name : String
  op : String
  value : Value
  checks : List (String × String × Value)
  error_msg : String
deriving DecidableEq

/-- `required_if(...)`'s inner `check_field(form, field)`, with the target
field passed as its type tag and bound data.  Empty-after-trim target value
triggers the check loop; `checks or [(depend_name, op, value)]` supplies the
default check; the rule raises `ValidationError(error_msg)` when every check
is satisfied. -/
def check_field (form : List FField) (targetType : String) (targetData : Value)
    (cfg : RIConfig) : Except PyErr Unit :=
  let data := trimIfStr targetData
  if truthy data then Except.ok ()
  else do
    let checks :=
      if cfg.checks = [] then [(cfg.depend_name, cfg.op, cfg.value)] else cfg.checks
    let logics ← run_checks (eval_check form targetType) checks 0
    if logics = checks.length then Except.error (PyErr.validationError cfg.error_msg)
    else Except.ok ()

/-- `check_field` under the spec's dependency-type trim rule (refinement
definition written from the spec's words). -/
def check_field_dep_trim (form : List FField) (targetData : Value)
    (cfg : RIConfig) : Except PyErr Unit :=
  let data := trimIfStr targetData
  if truthy data then Except.ok ()
  else do
    let checks :=
      if cfg.checks = [] then [(cfg.depend_name, cfg.op, cfg.value)] else cfg.checks
    let logics ← run_checks (eval_check_dep_trim form) checks 0
    if logics = checks.length then Except.error (PyErr.validationError cfg.error_msg)
    else Except.ok ()

/-- `check_field` with string dependency values always trimmed. -/
def check_field_all_trim (form : List FField) (targetData : Value)
    (cfg : RIConfig) : Except PyErr Unit :=
  let data := trimIfStr targetData
  if truthy data then Except.ok ()
  else do
    let checks :=
      if cfg.checks = [] then [(cfg.depend_name, cfg.op, cfg.value)] else cfg.checks
    let logics ← run_checks (eval_check_all_trim form) checks 0
    if logics = checks.length then Except.error (PyErr.validationError cfg.error_msg)
    else Except.ok ()

/-- `check_field` with dependency values never trimmed. -/
def check_field_no_trim (form : List FField) (targetData : Value)
    (cfg : RIConfig) : Except PyErr Unit :=
  let data := trimIfStr targetData
  if truthy data then Except.ok ()
  else do
    let checks :=
      if cfg.checks = [] then [(cfg.depend_name, cfg.op, cfg.value)] else cfg.checks
    let logics ← run_checks (eval_check_no_trim form) checks 0
    if logics = checks.length then Except.error (PyErr.validationError cfg.error_msg)
    else Except.ok ()

/-- The per-class declarations `__lowers__`, `__uppers__`, `__nostrips__`,
`__excludes__`, `__aliases__` of one class in the method-resolution order.
A missing declaration is the empty collection (the class-level defaults on
`ToppingForm`). -/
structure ClassDecl where
  lowers : List String := []
  uppers : List String := []
  nostrips : List String := []
  excludes : List String := []
  aliases : List (String × String) := []
deriving DecidableEq

/-- A method-resolution order already cut at the `ToppingForm` marker:
most-derived class first, marker and its ancestors excluded (the
`if kls.__name__ == "ToppingForm": break` of `get_attrs`). -/
abbrev Mro := List ClassDecl

/-- `get_attrs(kind, is_list=True)`: concatenate the declared lists along the
walk, then deduplicate (`list(set(attrs_))`; only membership in the result is
meaningful downstream). -/
def get_attrs_list (mro : Mro) (sel : ClassDecl → List String) : List String :=
  (mro.foldl (fun acc kls => acc ++ sel kls) []).dedup

/-- First-match association-list lookup (the behaviour of a Python `dict`
built with unique keys). -/
def alookup {α : Type} : List (String × α) → String → Option α
  | [], _ => Option.none
  | kv :: rest, k => if kv.1 = k then Option.some kv.2 else alookup rest k

/-- `attrs_.setdefault(k, v)`: insert the pair only when the key is absent. -/
def setdefault (m : List (String × String)) (k v : String) :
    List (String × String) :=
  if (alookup m k).isSome then m else m ++ [(k, v)]

/-- Merge one class's `__aliases__` into the accumulator with `setdefault`. -/
def insert_aliases (m : List (String × String)) (kls : ClassDecl) :
    List (String × String) :=
  kls.aliases.foldl (fun m2 kv => setdefault m2 kv.1 kv.2) m

/-- `get_attrs("aliases", is_list=False)`: walk the method-resolution order
most-derived first, `setdefault`-inserting every declared alias pair, so the
first class declaring a key wins. -/
def get_attrs_aliases (mro : Mro) : List (String × String) :=
  mro.foldl insert_aliases []

/-- Python `dct[k] = v` on an insertion-ordered dict with unique keys:
replace the existing entry in place, else append. -/
def dictSet {α : Type} : List (String × α) → String → α → List (String × α)
  | [], k, v => [(k, v)]
  | kv :: rest, k, v =>
    if kv.1 = k then (k, v) :: rest else kv :: dictSet rest k v

/-- The keys of a modelled dict. -/
def keys {α : Type} (d : List (String × α)) : List String :=
  d.map (fun kv => kv.1)

/-- `current_app.config.get("WTF_CSRF_FIELD_NAME") or "csrf_token"`:
a missing or empty configured name falls back to the default. -/
def resolveCsrf (cfg : Option String) : String :=
  match cfg with
  | Option.none => "csrf_token"
  | Option.some s => if s = "" then "csrf_token" else s

/-- The strip step of `parse_form`'s loop: trim string data unless the field
is in the no-strip set or is password-typed. -/
def stripData (nostrips : List String) (f : FField) : Value :=
  match f.data with
  | Value.str s =>
    if f.name ∉ nostrips ∧ f.ftype ≠ "PasswordField" then Value.str (pyStrip s)
    else Value.str s
  | v => v

/-- `data.lower()`: defined on strings, `AttributeError` otherwise. -/
def vLower : Value → Except PyErr Value
  | Value.str s => Except.ok (Value.str (pyLower s))
  | _ => Except.error (PyErr.attributeError "lower")

/-- `data.upper()`: defined on strings, `AttributeError` otherwise. -/
def vUpper : Value → Except PyErr Value
  | Value.str s => Except.ok (Value.str (pyUpper s))
  | _ => Except.error (PyErr.attributeError "upper")

/-- The case step of `parse_form`'s loop: guarded on `data is not None`,
lowercase when the name is in the lowers set, else uppercase when in the
uppers set. -/
def caseData (lowers uppers : List String) (name : String) :
    Value → Except PyErr Value
  | Value.none => Except.ok Value.none
  | v =>
    if name ∈ lowers then vLower v
    else if name ∈ uppers then vUpper v
    else Except.ok v

/-- The skip condition of `parse_form`'s loop (`continue`): excluded name or
non-value (submit / file) type tag. -/
def skipField (excludes : List String) (f : FField) : Prop :=
  f.name ∈ excludes ∨ f.ftype ∈ NON_VALUE_FIELDS

instance (excludes : List String) (f : FField) : Decidable (skipField excludes f) := by
  unfold skipField
  infer_instance

/-- The output key of a field under the resolved aliases
(`aliases.get(name, name)`). -/
def outKey (aliases : List (String × String)) (f : FField) : String :=
  (alookup aliases f.name).getD f.name

/-- The field loop of `parse_form`, iterating the fields in declaration order
over the accumulated dict. -/
def parse_form_loop (lowers uppers nostrips excludes : List String)
    (aliases : List (String × String)) :
    List FField → List (String × Value) → Except PyErr (List (String × Value))
  | [], dct => Except.ok dct
  | f :: rest, dct =>
    if skipField excludes f then
      parse_form_loop lowers uppers nostrips excludes aliases rest dct
    else
      match caseData lowers uppers f.name (stripData nostrips f) with
      | Except.error e => Except.error e
      | Except.ok data =>
        parse_form_loop lowers uppers nostrips excludes aliases rest
          (dictSet dct (outKey aliases f) data)

/-- `ToppingForm.parse_form(use_timestamps=...)`: resolve the five
configuration kinds along the method-resolution order, append the CSRF field
name to the excludes, run the field loop, then add the two timestamp keys
when requested (`now` stands for `datetime.now(timezone.utc)`; both keys get
the same instant).  The optional `box_wrap` handling only changes the mapping
wrapper, not its entries, and is not modelled. -/
def parse_form (mro : Mro) (csrfCfg : Option String) (form : List FField)
    (useTimestamps : Bool) (now : Value) : Except PyErr (List (String × Value)) :=
  let lowers := get_attrs_list mro (fun k => k.lowers)
  let uppers := get_attrs_list mro (fun k => k.uppers)
  let nostrips := get_attrs_list mro (fun k => k.nostrips)
  let excludes := get_attrs_list mro (fun k => k.excludes) ++ [resolveCsrf csrfCfg]
  let aliases := get_attrs_aliases mro
  match parse_form_loop lowers uppers nostrips excludes aliases form [] with
  | Except.error e => Except.error e
  | Except.ok dct =>
    Except.ok
      (if useTimestamps then dictSet (dictSet dct "created_at" now) "updated_at" now
       else dct)

/-- The first loop of `ToppingForm.parse_files`: the explicitly requested
names, each included when its extracted list is non-empty. -/
def parse_files_names (sanitize : String → String)
    (reqFiles : String → List UploadEntry) :
    List String → List (String × List FileInfo) → List (String × List FileInfo)
  | [], d => d
  | n :: rest, d =>
    let fs := get_files sanitize (reqFiles n)
    parse_files_names sanitize reqFiles rest (if fs = [] then d else dictSet d n fs)

/-- The second loop of `ToppingForm.parse_files`: every field with truthy data
whose type tag ends in `"FileField"`, included when its extracted list is
non-empty. -/
def parse_files_fields (sanitize : String → String)
    (reqFiles : String → List UploadEntry) :
    List FField → List (String × List FileInfo) → List (String × List FileInfo)
  | [], d => d
  | f :: rest, d =>
    if truthy f.data ∧ pyEndsWith f.ftype "FileField" then
      let fs := get_files sanitize (reqFiles f.name)
      parse_files_fields sanitize reqFiles rest (if fs = [] then d else dictSet d f.name fs)
    else parse_files_fields sanitize reqFiles rest d

/-- `ToppingForm.parse_files(names)`. -/
def parse_files (sanitize : String → String)
    (reqFiles : String → List UploadEntry) (form : List FField)
    (names : List String) : List (String × List FileInfo) :=
  parse_files_fields sanitize reqFiles form
    (parse_files_names sanitize reqFiles names [])

/-- `get_attrs` for a list kind as an operation on the class-declaration
state: it reads the current declarations and leaves them unchanged (a fresh
list is built on every call; nothing is written back to the classes). -/
def get_attrs_listS (sel : ClassDecl → List String) : StateM Mro (List String) :=
  fun mro => (get_attrs_list mro sel, mro)

/-- `get_attrs` for the alias mapping as an operation on the
class-declaration state. -/
def get_attrs_aliasesS : StateM Mro (List (String × String)) :=
  fun mro => (get_attrs_aliases mro, mro)

/-- `parse_form` as an operation on the class-declaration state: each call
re-reads every declaration kind afresh (the CSRF name is appended to the
fresh excludes list of this call only). -/
def parse_formS (csrfCfg : Option String) (form : List FField)
    (useTimestamps : Bool) (now : Value) :
    StateM Mro (Except PyErr (List (String × Value))) := do
  let lowers ← get_attrs_listS (fun k => k.lowers)
  let uppers ← get_attrs_listS (fun k => k.uppers)
  let nostrips ← get_attrs_listS (fun k => k.nostrips)
  let excludes0 ← get_attrs_listS (fun k => k.excludes)
  let aliases ← get_attrs_aliasesS
  let excludes := excludes0 ++ [resolveCsrf csrfCfg]
  match parse_form_loop lowers uppers nostrips excludes aliases form [] with
  | Except.error e => pure (Except.error e)
  | Except.ok dct =>
    pure (Except.ok
      (if useTimestamps then dictSet (dictSet dct "created_at" now) "updated_at" now
       else dct))

/-! ## Helper lemmas -/

/-- `ofirst a b` is `a` when `a` carries a value, else `b` (the merge order of
a `setdefault`-built mapping). -/
def ofirst {α : Type} : Option α → Option α → Option α
  | Option.some v, _ => Option.some v
  | Option.none, b => b

theorem ofirst_none_right {α : Type} (a : Option α) : ofirst a Option.none = a := by
  cases a <;> rfl

theorem ofirst_assoc {α : Type} (a b c : Option α) :
    ofirst (ofirst a b) c = ofirst a (ofirst b c) := by
  cases a <;> rfl

theorem alookup_append {α : Type} (m1 m2 : List (String × α)) (k : String) :
    alookup (m1 ++ m2) k = ofirst (alookup m1 k) (alookup m2 k) := by
  induction m1 with
  | nil => simp [alookup, ofirst]
  | cons kv rest ih =>
    by_cases h : kv.1 = k <;> simp [alookup, h, ih, ofirst]

theorem alookup_isSome_iff_mem_keys {α : Type} (d : List (String × α)) (k : String) :
    (alookup d k).isSome = true ↔ k ∈ keys d := by
  induction d with
  | nil => simp [alookup, keys]
  | cons kv rest ih =>
    by_cases h : kv.1 = k
    · simp [alookup, keys, h]
    · simp only [alookup, keys, List.map_cons, List.mem_cons, if_neg h]
      rw [show (rest.map (fun kv => kv.1)) = keys rest from rfl, ← ih]
      constructor
      · exact fun hk => Or.inr hk
      · rintro (hk | hk)
        · exact absurd hk.symm h
        · exact hk

theorem alookup_setdefault (m : List (String × String)) (k1 v1 k : String) :
    alookup (setdefault m k1 v1) k
      = ofirst (alookup m k) (if k1 = k then Option.some v1 else Option.none) := by
  unfold setdefault
  by_cases hs : (alookup m k1).isSome
  · rw [if_pos hs]
    by_cases hk : k1 = k
    · subst hk
      cases ho : alookup m k1 with
      | none => rw [ho] at hs; simp at hs
      | some v => simp [ho, ofirst]
    · cases ho : alookup m k <;> simp [ofirst, hk]
  · rw [if_neg hs, alookup_append]
    rfl

theorem alookup_foldl_setdefault (l : List (String × String)) :
    ∀ (m : List (String × String)) (k : String),
      alookup (l.foldl (fun m2 kv => setdefault m2 kv.1 kv.2) m) k
        = ofirst (alookup m k) (alookup l k) := by
  induction l with
  | nil => intro m k; simp [alookup, ofirst_none_right]
  | cons kv rest ih =>
    intro m k
    simp only [List.foldl_cons]
    rw [ih, alookup_setdefault, ofirst_assoc]
    congr 1
    by_cases h : kv.1 = k <;> simp [alookup, h, ofirst]

theorem alookup_insert_aliases (m : List (String × String)) (kls : ClassDecl)
    (k : String) :
    alookup (insert_aliases m kls) k = ofirst (alookup m k) (alookup kls.aliases k) :=
  alookup_foldl_setdefault kls.aliases m k

theorem get_attrs_aliases_foldl (mro : Mro) :
    ∀ (m : List (String × String)) (k : String),
      alookup (mro.foldl insert_aliases m) k
        = ofirst (alookup m k)
            (mro.findSome? (fun kls => alookup kls.aliases k)) := by
  induction mro with
  | nil => intro m k; simp [ofirst_none_right]
  | cons kls rest ih =>
    intro m k
    simp only [List.foldl_cons]
    rw [ih, alookup_insert_aliases, ofirst_assoc]
    congr 1
    cases h : alookup kls.aliases k <;> simp [List.findSome?_cons, h, ofirst]

/-! ## Claims -/

/-- C10: `filter_fields` accepts a bare string type tag and treats it as the
one-element tuple containing that tag: for every string `t`, every `contains`
flag and every form, the result coincides with passing the singleton
collection. -/
theorem filter_fields_string_singleton (form : List FField) (t : String) (c : Bool) :
    filter_fields form (Sum.inl t) c = filter_fields form (Sum.inr [t]) c := rfl

/-- C4: resolving the alias mapping walks the method-resolution order from the
most-derived class up to the base marker, inserting each key only if not
already present, so the first class in the walk declaring a key wins
(`List.findSome?` over the walk); concretely, for a chain A→B→C with C most
derived, A declaring `x ↦ a_out`, B declaring `x ↦ b_out` and C nothing,
resolving aliases yields `x ↦ b_out`. -/
theorem get_attrs_aliases_precedence :
    (∀ (mro : Mro) (k : String),
        alookup (get_attrs_aliases mro) k
          = mro.findSome? (fun kls => alookup kls.aliases k))
    ∧ alookup (get_attrs_aliases
        [⟨[], [], [], [], []⟩,
         ⟨[], [], [], [], [("x", "b_out")]⟩,
         ⟨[], [], [], [], [("x", "a_out")]⟩]) "x" = Option.some "b_out" := by
  constructor
  · intro mro k
    have h := get_attrs_aliases_foldl mro [] k
    simpa [get_attrs_aliases, alookup, ofirst] using h
  · decide

/-- C6: over any form whose field names are distinct, `html_fields` and the
fields typed in `NON_HTML_FIELDS` are disjoint and together exhaust the field
names (`filter_fields` with `contains = false` is the exact complement of
`filter_fields` with `contains = true` over the same tag set). -/
theorem mem_filter_fields_true (form : List FField) (tags : List String) (n : String) :
    n ∈ filter_fields form (Sum.inr tags) true
      ↔ ∃ f, f ∈ form ∧ f.ftype ∈ tags ∧ f.name = n := by
  simp [filter_fields, List.mem_filter, and_assoc]

theorem mem_filter_fields_false (form : List FField) (tags : List String) (n : String) :
    n ∈ filter_fields form (Sum.inr tags) false
      ↔ ∃ f, f ∈ form ∧ f.ftype ∉ tags ∧ f.name = n := by
  simp [filter_fields, List.mem_filter, and_assoc]

theorem html_fields_partition (form : List FField)
    (h : (form.map FField.name).Nodup) (n : String) :
    ¬(n ∈ html_fields form ∧ n ∈ filter_fields form (Sum.inr NON_HTML_FIELDS) true)
    ∧ ((n ∈ html_fields form ∨ n ∈ filter_fields form (Sum.inr NON_HTML_FIELDS) true)
        ↔ n ∈ form.map FField.name) := by
  constructor
  · rintro ⟨h1, h2⟩
    rw [html_fields, mem_filter_fields_false] at h1
    rw [mem_filter_fields_true] at h2
    obtain ⟨f1, hf1, hp1, hn1⟩ := h1
    obtain ⟨f2, hf2, hp2, hn2⟩ := h2
    have heq : f1 = f2 := List.inj_on_of_nodup_map h hf1 hf2 (hn1.trans hn2.symm)
    rw [heq] at hp1
    exact hp1 hp2
  · rw [html_fields, mem_filter_fields_false, mem_filter_fields_true]
    constructor
    · rintro (⟨f, hf, _, hn⟩ | ⟨f, hf, _, hn⟩) <;>
        exact List.mem_map.mpr ⟨f, hf, hn⟩
    · intro h1
      obtain ⟨f, hf, hn⟩ := List.mem_map.mp h1
      by_cases hp : f.ftype ∈ NON_HTML_FIELDS
      · exact Or.inr ⟨f, hf, hp, hn⟩
      · exact Or.inl ⟨f, hf, hp, hn⟩

/-- Witness for C6 at a concrete form with distinct names. -/
theorem html_fields_partition_witness :
    (¬("name" ∈ html_fields
        [⟨"name", "StringField", Value.str "x"⟩, ⟨"go", "SubmitField", Value.none⟩]
      ∧ "name" ∈ filter_fields
        [⟨"name", "StringField", Value.str "x"⟩, ⟨"go", "SubmitField", Value.none⟩]
        (Sum.inr NON_HTML_FIELDS) true))
    ∧ (("name" ∈ html_fields
        [⟨"name", "StringField", Value.str "x"⟩, ⟨"go", "SubmitField", Value.none⟩]
      ∨ "name" ∈ filter_fields
        [⟨"name", "StringField", Value.str "x"⟩, ⟨"go", "SubmitField", Value.none⟩]
        (Sum.inr NON_HTML_FIELDS) true)
      ↔ "name" ∈ List.map FField.name
        [⟨"name", "StringField", Value.str "x"⟩, ⟨"go", "SubmitField", Value.none⟩]) :=
  html_fields_partition
    [⟨"name", "StringField", Value.str "x"⟩, ⟨"go", "SubmitField", Value.none⟩]
    (by decide) "name"

theorem eval_check_password_eq_no_trim (form : List FField) :
    eval_check form "PasswordField" = eval_check_no_trim form := by
  funext chk
  unfold eval_check eval_check_no_trim
  cases hfind : find_field form chk.1 with
  | none => rfl
  | some depf => cases hd : depf.data <;> simp [hd]

theorem eval_check_ne_password_eq_all_trim (form : List FField) (tType : String)
    (h : tType ≠ "PasswordField") :
    eval_check form tType = eval_check_all_trim form := by
  funext chk
  unfold eval_check eval_check_all_trim
  cases hfind : find_field form chk.1 with
  | none => rfl
  | some depf => cases hd : depf.data <;> simp [trimIfStr, h, hd]

/-- C1 counterexample: with a password-typed DEPENDENCY field holding `" x "`
and a non-password TARGET field, the code trims the dependency value (because
it consults the target field's type), satisfies the `eq "x"` check and raises;
under the claimed dependency-type trim rule the value would stay `" x "`, the
check would fail and validation would pass.  So the claim is false at this
input. -/
theorem check_field_trim_target_type_cex :
    check_field [⟨"pwd", "PasswordField", Value.str " x "⟩] "StringField"
        (Value.str "")
        ⟨"", "", Value.none, [("pwd", "eq", Value.str "x")], "This field is required"⟩
      = Except.error (PyErr.validationError "This field is required")
    ∧ check_field_dep_trim [⟨"pwd", "PasswordField", Value.str " x "⟩]
        (Value.str "")
        ⟨"", "", Value.none, [("pwd", "eq", Value.str "x")], "This field is required"⟩
      = Except.ok ()
    ∧ check_field [⟨"pwd", "PasswordField", Value.str " x "⟩] "StringField"
        (Value.str "")
        ⟨"", "", Value.none, [("pwd", "eq", Value.str "x")], "This field is required"⟩
      ≠ check_field_dep_trim [⟨"pwd", "PasswordField", Value.str " x "⟩]
        (Value.str "")
        ⟨"", "", Value.none, [("pwd", "eq", Value.str "x")], "This field is required"⟩ :=
  ⟨by decide, by decide, by decide⟩

/-- C1 amended: whether the dependency value is trimmed is decided by the
TARGET field's type, not the dependency field's: when the target field is
password-typed no dependency value is trimmed, and when it is not
password-typed every string dependency value is trimmed. -/
theorem check_field_trim_by_target_type (form : List FField) (tData : Value)
    (cfg : RIConfig) :
    check_field form "PasswordField" tData cfg = check_field_no_trim form tData cfg
    ∧ ∀ tType : String, tType ≠ "PasswordField" →
        check_field form tType tData cfg = check_field_all_trim form tData cfg := by
  constructor
  · unfold check_field check_field_no_trim
    rw [eval_check_password_eq_no_trim]
  · intro tType h
    unfold check_field check_field_all_trim
    rw [eval_check_ne_password_eq_all_trim form tType h]

/-- Witness for the amended C1 at a concrete non-password target field. -/
theorem check_field_trim_by_target_type_witness :
    check_field [⟨"pwd", "PasswordField", Value.str " x "⟩] "StringField"
        (Value.str "")
        ⟨"", "", Value.none, [("pwd", "eq", Value.str "x")], "This field is required"⟩
      = check_field_all_trim [⟨"pwd", "PasswordField", Value.str " x "⟩]
        (Value.str "")
        ⟨"", "", Value.none, [("pwd", "eq", Value.str "x")], "This field is required"⟩ :=
  (check_field_trim_by_target_type _ _ _).2 "StringField" (by decide)

/-- C2 counterexample: with an empty checks list and empty `depend_name`, the
effective check list is the single default check `("", "", None)`, so on an
empty target value the code evaluates `getattr(form, "")`, which raises
`AttributeError`, not the validation-failure signal with the configured
message. -/
theorem required_if_empty_checks_cex :
    check_field [⟨"email", "StringField", Value.str "a@b.com"⟩] "StringField"
        (Value.str "") ⟨"", "", Value.none, [], "This field is required"⟩
      = Except.error (PyErr.attributeError "")
    ∧ check_field [⟨"email", "StringField", Value.str "a@b.com"⟩] "StringField"
        (Value.str "") ⟨"", "", Value.none, [], "This field is required"⟩
      ≠ Except.error (PyErr.validationError "This field is required") :=
  ⟨by decide, by decide⟩

/-- C2 amended: a validator built with an empty checks list and empty
`depend_name` falls back to the single default check `("", op, value)`;
whenever the target field's trimmed value is empty and the form has no field
named `""`, invoking the validator raises `AttributeError` (a configuration
error), regardless of the values of any other field on the form. -/
theorem required_if_empty_checks_attribute_error (form : List FField)
    (tType : String) (tData : Value) (op : String) (val : Value) (msg : String)
    (hEmpty : truthy (trimIfStr tData) = false)
    (hNoField : find_field form "" = Option.none) :
    check_field form tType tData ⟨"", op, val, [], msg⟩
      = Except.error (PyErr.attributeError "") := by
  simp [check_field, hEmpty, run_checks, eval_check, hNoField, Except.bind]
  rfl

/-- Witness for the amended C2 at a concrete form and empty target value. -/
theorem required_if_empty_checks_attribute_error_witness :
    check_field [⟨"email", "StringField", Value.str "hi"⟩] "StringField"
        (Value.str "  ") ⟨"", "ne", Value.int 3, [], "msg"⟩
      = Except.error (PyErr.attributeError "") :=
  required_if_empty_checks_attribute_error _ _ _ _ _ _ (by decide) (by decide)

theorem get_files_foldl_aux (sanitize : String → String) :
    ∀ (entries : List UploadEntry) (files : List FileInfo) (seen : List String),
      (entries.foldl (get_files_step sanitize) (files, seen)).1
        = files ++ extractAux sanitize entries seen := by
  intro entries
  induction entries with
  | nil => intro files seen; simp [extractAux]
  | cons fo rest ih =>
    intro files seen
    rw [List.foldl_cons]
    by_cases h1 : fo.filename = ""
    · have hstep : get_files_step sanitize (files, seen) fo = (files, seen) := by
        simp [get_files_step, h1]
      rw [hstep, ih]
      simp [extractAux, h1]
    · by_cases h2 : sanitize fo.filename ∈ seen
      · have hstep : get_files_step sanitize (files, seen) fo
            = (files, seen ++ [sanitize fo.filename]) := by
          simp [get_files_step, get_file, h1, h2]
        rw [hstep, ih]
        simp [extractAux, h1, h2]
      · have hstep : get_files_step sanitize (files, seen) fo
            = (files ++ [get_file sanitize fo], seen ++ [sanitize fo.filename]) := by
          simp [get_files_step, get_file, h1, h2]
        rw [hstep, ih]
        simp [extractAux, h1, h2]

theorem extractAux_eq_firstWithKey (sanitize : String → String) :
    ∀ (entries : List UploadEntry) (seen : List String),
      extractAux sanitize entries seen
        = (firstWithKey (fun e => sanitize e.filename)
            (entries.filter
              (fun e => e.filename ≠ "" ∧ sanitize e.filename ∉ seen))).map
            (get_file sanitize) := by
  intro entries
  induction entries with
  | nil => intro seen; simp [extractAux, firstWithKey]
  | cons fo rest ih =>
    intro seen
    by_cases h1 : fo.filename = ""
    · rw [show extractAux sanitize (fo :: rest) seen = extractAux sanitize rest seen
          from by simp [extractAux, h1]]
      rw [ih]
      congr 2
      simp [h1]
    · by_cases h2 : sanitize fo.filename ∈ seen
      · rw [show extractAux sanitize (fo :: rest) seen
            = extractAux sanitize rest (seen ++ [sanitize fo.filename])
            from by simp [extractAux, h1, h2]]
        rw [ih]
        have hdrop : (fo :: rest).filter
              (fun e => decide (e.filename ≠ "" ∧ sanitize e.filename ∉ seen))
            = rest.filter
              (fun e => decide (e.filename ≠ "" ∧ sanitize e.filename ∉ seen)) := by
          simp [h2]
        rw [hdrop]
        congr 2
        apply List.filter_congr
        intro x hx
        by_cases hk : sanitize x.filename = sanitize fo.filename
        · simp [List.mem_append, hk, h2]
        · simp [List.mem_append, hk]
      · rw [show extractAux sanitize (fo :: rest) seen
            = get_file sanitize fo
              :: extractAux sanitize rest (seen ++ [sanitize fo.filename])
            from by simp [extractAux, h1, h2]]
        rw [ih]
        have hcons : (fo :: rest).filter
              (fun e => decide (e.filename ≠ "" ∧ sanitize e.filename ∉ seen))
            = fo :: rest.filter
              (fun e => decide (e.filename ≠ "" ∧ sanitize e.filename ∉ seen)) := by
          simp [h1, h2]
        rw [hcons, firstWithKey, List.map_cons]
        congr 2
        rw [List.filter_filter]
        congr 1
        apply List.filter_congr
        intro x hx
        by_cases hk : sanitize x.filename = sanitize fo.filename
        · simp [List.mem_append, hk, h2]
        · simp [List.mem_append, hk]

/-- C3: `get_files` returns, in first-seen submission order, exactly the
entries with a non-empty filename whose sanitized filename has not occurred
on an earlier such entry (`firstWithKey` dedup over the non-empty-filename
sublist); in particular two entries whose distinct original filenames
sanitize to the same string yield exactly one descriptor, the first
submitted. -/
theorem get_files_dedup (sanitize : String → String) (entries : List UploadEntry) :
    get_files sanitize entries
      = (firstWithKey (fun e => sanitize e.filename)
          (entries.filter (fun e => e.filename ≠ ""))).map (get_file sanitize)
    ∧ get_files pyLower [⟨"My File.txt", 0⟩, ⟨"my file.txt", 1⟩]
      = [⟨⟨"My File.txt", 0⟩, "My File.txt", "my file.txt"⟩] := by
  constructor
  · rw [get_files, get_files_foldl_aux, extractAux_eq_firstWithKey]
    rw [List.nil_append]
    congr 2
    apply List.filter_congr
    intro x hx
    simp
  · decide

/-- C7: running `parse_form` twice in sequence on the same form with the same
configuration (no timestamps) yields two equal mappings, leaves the
class-declaration state untouched (each call recomputes its resolved
configuration from scratch and accumulates nothing), and each result is the
pure `parse_form` of the current declarations. -/
theorem parse_form_idempotent (σ : Mro) (csrfCfg : Option String)
    (form : List FField) (now : Value) :
    (((parse_formS csrfCfg form false now).bind
        (fun a => (parse_formS csrfCfg form false now).bind
          (fun b => pure (a, b)))).run σ).1.1
      = (((parse_formS csrfCfg form false now).bind
          (fun a => (parse_formS csrfCfg form false now).bind
            (fun b => pure (a, b)))).run σ).1.2
    ∧ (((parse_formS csrfCfg form false now).bind
        (fun a => (parse_formS csrfCfg form false now).bind
          (fun b => pure (a, b)))).run σ).2 = σ
    ∧ (((parse_formS csrfCfg form false now).bind
        (fun a => (parse_formS csrfCfg form false now).bind
          (fun b => pure (a, b)))).run σ).1.1
      = parse_form σ csrfCfg form false now := by
  refine ⟨?_, ?_, ?_⟩ <;>
    simp only [parse_formS, parse_form, get_attrs_listS, get_attrs_aliasesS,
      StateT.run, StateT.bind, bind, pure, StateT.pure, Id.run] <;>
    cases h : parse_form_loop (get_attrs_list σ (fun k => k.lowers))
      (get_attrs_list σ (fun k => k.uppers)) (get_attrs_list σ (fun k => k.nostrips))
      (get_attrs_list σ (fun k => k.excludes) ++ [resolveCsrf csrfCfg])
      (get_attrs_aliases σ) form [] <;>
    simp [h, StateT.pure]

theorem keys_cons {α : Type} (kv : String × α) (rest : List (String × α)) :
    keys (kv :: rest) = kv.1 :: keys rest := rfl

theorem keys_dictSet {α : Type} (d : List (String × α)) (k : String) (v : α) :
    keys (dictSet d k v) = if k ∈ keys d then keys d else keys d ++ [k] := by
  induction d with
  | nil => simp [dictSet, keys]
  | cons kv rest ih =>
    by_cases h : kv.1 = k
    · rw [show dictSet (kv :: rest) k v = (k, v) :: rest from by simp [dictSet, h]]
      rw [keys_cons, keys_cons]
      have hmem : k ∈ kv.1 :: keys rest := h ▸ List.mem_cons_self kv.1 (keys rest)
      rw [if_pos hmem, h]
    · rw [show dictSet (kv :: rest) k v = kv :: dictSet rest k v from by simp [dictSet, h]]
      rw [keys_cons, ih, keys_cons]
      by_cases hk : k ∈ keys rest
      · rw [if_pos hk, if_pos (List.mem_cons_of_mem _ hk)]
      · have hnot : k ∉ kv.1 :: keys rest := by
          intro hc
          rcases List.mem_cons.mp hc with he | hm
          · exact h he.symm
          · exact hk hm
        rw [if_neg hk, if_neg hnot, List.cons_append]

theorem mem_keys_dictSet {α : Type} (d : List (String × α)) (k : String) (v : α)
    (x : String) :
    x ∈ keys (dictSet d k v) ↔ x = k ∨ x ∈ keys d := by
  rw [keys_dictSet]
  by_cases hk : k ∈ keys d
  · rw [if_pos hk]
    constructor
    · exact Or.inr
    · rintro (he | hm)
      · exact he ▸ hk
      · exact hm
  · rw [if_neg hk]
    simp [List.mem_append, or_comm]

theorem alookup_dictSet {α : Type} (d : List (String × α)) (k : String) (v : α)
    (x : String) :
    alookup (dictSet d k v) x = if x = k then Option.some v else alookup d x := by
  induction d with
  | nil =>
    by_cases h : x = k <;> simp [dictSet, alookup, h]
    intro hc
    exact h hc.symm
  | cons kv rest ih =>
    by_cases h : kv.1 = k
    · by_cases hx : x = k
      · subst hx
        simp [dictSet, alookup, h]
      · have hkx : ¬(k = x) := fun hc => hx hc.symm
        simp [dictSet, alookup, h, hx, hkx]
    · by_cases hkv : kv.1 = x
      · have hx : ¬(x = k) := by
          intro hc
          rw [hc] at hkv
          exact h hkv
        simp [dictSet, alookup, h, hkv, hx]
      · simp [dictSet, alookup, h, hkv, ih]

theorem parse_form_loop_keys (lowers uppers nostrips excludes : List String)
    (aliases : List (String × String)) :
    ∀ (fields : List FField) (dct d : List (String × Value)),
      parse_form_loop lowers uppers nostrips excludes aliases fields dct
        = Except.ok d →
      ∀ x ∈ keys d, x ∈ keys dct
        ∨ ∃ f, f ∈ fields ∧ ¬skipField excludes f ∧ x = outKey aliases f := by
  intro fields
  induction fields with
  | nil =>
    intro dct d h x hx
    simp only [parse_form_loop] at h
    cases h
    exact Or.inl hx
  | cons f rest ih =>
    intro dct d h x hx
    simp only [parse_form_loop] at h
    by_cases hskip : skipField excludes f
    · rw [if_pos hskip] at h
      rcases ih dct d h x hx with hk | ⟨g, hg, hns, hout⟩
      · exact Or.inl hk
      · exact Or.inr ⟨g, List.mem_cons_of_mem _ hg, hns, hout⟩
    · rw [if_neg hskip] at h
      cases hc : caseData lowers uppers f.name (stripData nostrips f) with
      | error e =>
        rw [hc] at h
        exact Except.noConfusion h
      | ok data =>
        rw [hc] at h
        rcases ih _ d h x hx with hk | ⟨g, hg, hns, hout⟩
        · rcases (mem_keys_dictSet dct (outKey aliases f) data x).mp hk with he | hk2
          · exact Or.inr ⟨f, List.mem_cons_self f rest, hskip, he⟩
          · exact Or.inl hk2
        · exact Or.inr ⟨g, List.mem_cons_of_mem _ hg, hns, hout⟩

/-- C5: every key of the mapping returned by `parse_form` is either a
timestamp key (only when `use_timestamps` is set) or the output name of a
field that is not in the resolved exclude set, is not the configured CSRF
token field, and is not submit- or file-typed; so no excluded, submit-typed,
file-typed or CSRF field contributes an entry. -/
theorem parse_form_skips_excluded (mro : Mro) (csrfCfg : Option String)
    (form : List FField) (useTs : Bool) (now : Value) (d : List (String × Value))
    (h : parse_form mro csrfCfg form useTs now = Except.ok d) :
    ∀ x ∈ keys d,
      (useTs = true ∧ (x = "created_at" ∨ x = "updated_at"))
      ∨ ∃ f, f ∈ form
          ∧ f.name ∉ get_attrs_list mro (fun k => k.excludes)
          ∧ f.name ≠ resolveCsrf csrfCfg
          ∧ f.ftype ∉ NON_VALUE_FIELDS
          ∧ x = outKey (get_attrs_aliases mro) f := by
  have main : ∀ (x : String) (dct : List (String × Value)),
      parse_form_loop (get_attrs_list mro (fun k => k.lowers))
        (get_attrs_list mro (fun k => k.uppers))
        (get_attrs_list mro (fun k => k.nostrips))
        (get_attrs_list mro (fun k => k.excludes) ++ [resolveCsrf csrfCfg])
        (get_attrs_aliases mro) form [] = Except.ok dct →
      x ∈ keys dct →
      ∃ f, f ∈ form
        ∧ f.name ∉ get_attrs_list mro (fun k => k.excludes)
        ∧ f.name ≠ resolveCsrf csrfCfg
        ∧ f.ftype ∉ NON_VALUE_FIELDS
        ∧ x = outKey (get_attrs_aliases mro) f := by
    intro x dct hl hx
    rcases parse_form_loop_keys _ _ _ _ _ form [] dct hl x hx with hk | ⟨f, hf, hns, hout⟩
    · simp [keys] at hk
    · have h1 : f.name ∉ get_attrs_list mro (fun k => k.excludes)
            ++ [resolveCsrf csrfCfg] ∧ f.ftype ∉ NON_VALUE_FIELDS := by
        unfold skipField at hns
        push_neg at hns
        exact hns
      refine ⟨f, hf, ?_, ?_, h1.2, hout⟩
      · intro hc
        exact h1.1 (List.mem_append.mpr (Or.inl hc))
      · intro hc
        exact h1.1 (List.mem_append.mpr (Or.inr (by simp [hc])))
  intro x hx
  simp only [parse_form] at h
  cases hl : parse_form_loop (get_attrs_list mro (fun k => k.lowers))
      (get_attrs_list mro (fun k => k.uppers))
      (get_attrs_list mro (fun k => k.nostrips))
      (get_attrs_list mro (fun k => k.excludes) ++ [resolveCsrf csrfCfg])
      (get_attrs_aliases mro) form [] with
  | error e =>
    rw [hl] at h
    exact Except.noConfusion h
  | ok dct =>
    rw [hl] at h
    have hd := (Except.ok.inj h).symm
    cases useTs with
    | false =>
      simp only [if_neg Bool.false_ne_true] at hd
      rw [hd] at hx
      exact Or.inr (main x dct hl hx)
    | true =>
      simp only [if_pos rfl] at hd
      rw [hd] at hx
      rcases (mem_keys_dictSet _ _ _ x).mp hx with he | hx2
      · exact Or.inl ⟨rfl, Or.inr he⟩
      · rcases (mem_keys_dictSet _ _ _ x).mp hx2 with he2 | hx3
        · exact Or.inl ⟨rfl, Or.inl he2⟩
        · exact Or.inr (main x dct hl hx3)

/-- Witness for C5 at a concrete two-field form (one skipped submit field). -/
theorem parse_form_skips_excluded_witness :
    (false = true ∧ ("a" = "created_at" ∨ "a" = "updated_at"))
    ∨ ∃ f, f ∈ [(⟨"a", "StringField", Value.int 5⟩ : FField),
          ⟨"go", "SubmitField", Value.none⟩]
        ∧ f.name ∉ get_attrs_list [] (fun k => k.excludes)
        ∧ f.name ≠ resolveCsrf Option.none
        ∧ f.ftype ∉ NON_VALUE_FIELDS
        ∧ "a" = outKey (get_attrs_aliases []) f :=
  parse_form_skips_excluded [] Option.none
    [⟨"a", "StringField", Value.int 5⟩, ⟨"go", "SubmitField", Value.none⟩]
    false Value.none [("a", Value.int 5)] (by decide) "a" (by decide)

theorem stripData_of_none (nostrips : List String) (f : FField)
    (h : f.data = Value.none) : stripData nostrips f = Value.none := by
  simp [stripData, h]

theorem parse_form_loop_preserve_none (lowers uppers nostrips excludes : List String)
    (aliases : List (String × String)) :
    ∀ (fields : List FField) (dct d : List (String × Value)) (x : String),
      parse_form_loop lowers uppers nostrips excludes aliases fields dct
        = Except.ok d →
      alookup dct x = Option.some Value.none →
      (∀ g ∈ fields, ¬skipField excludes g → outKey aliases g = x →
        g.data = Value.none) →
      alookup d x = Option.some Value.none := by
  intro fields
  induction fields with
  | nil =>
    intro dct d x h hcur _hall
    simp only [parse_form_loop] at h
    cases h
    exact hcur
  | cons f rest ih =>
    intro dct d x h hcur hall
    simp only [parse_form_loop] at h
    by_cases hskip : skipField excludes f
    · rw [if_pos hskip] at h
      exact ih dct d x h hcur (fun g hg => hall g (List.mem_cons_of_mem _ hg))
    · rw [if_neg hskip] at h
      by_cases hout : outKey aliases f = x
      · have hdata : f.data = Value.none :=
          hall f (List.mem_cons_self f rest) hskip hout
        rw [show caseData lowers uppers f.name (stripData nostrips f)
              = Except.ok Value.none
            from by rw [stripData_of_none nostrips f hdata]; rfl] at h
        refine ih _ d x h ?_ (fun g hg => hall g (List.mem_cons_of_mem _ hg))
        rw [alookup_dictSet, hout, if_pos rfl]
      · cases hc : caseData lowers uppers f.name (stripData nostrips f) with
        | error e =>
          rw [hc] at h
          exact Except.noConfusion h
        | ok data =>
          rw [hc] at h
          refine ih _ d x h ?_ (fun g hg => hall g (List.mem_cons_of_mem _ hg))
          rw [alookup_dictSet, if_neg (fun hc2 => hout hc2.symm)]
          exact hcur

theorem parse_form_loop_stores_none (lowers uppers nostrips excludes : List String)
    (aliases : List (String × String)) :
    ∀ (fields : List FField) (dct d : List (String × Value)) (f : FField),
      parse_form_loop lowers uppers nostrips excludes aliases fields dct
        = Except.ok d →
      f ∈ fields → ¬skipField excludes f → f.data = Value.none →
      (∀ g ∈ fields, ¬skipField excludes g → outKey aliases g = outKey aliases f →
        g.data = Value.none) →
      alookup d (outKey aliases f) = Option.some Value.none := by
  intro fields
  induction fields with
  | nil =>
    intro dct d f _h hf
    exact absurd hf (List.not_mem_nil f)
  | cons f0 rest ih =>
    intro dct d f h hf hskip hdata hall
    simp only [parse_form_loop] at h
    rcases List.mem_cons.mp hf with he | hmem
    · subst he
      rw [if_neg hskip] at h
      rw [show caseData lowers uppers f.name (stripData nostrips f)
            = Except.ok Value.none
          from by rw [stripData_of_none nostrips f hdata]; rfl] at h
      refine parse_form_loop_preserve_none lowers uppers nostrips excludes aliases
        rest _ d (outKey aliases f) h ?_
        (fun g hg => hall g (List.mem_cons_of_mem _ hg))
      rw [alookup_dictSet, if_pos rfl]
    · by_cases hskip0 : skipField excludes f0
      · rw [if_pos hskip0] at h
        exact ih dct d f h hmem hskip hdata
          (fun g hg => hall g (List.mem_cons_of_mem _ hg))
      · rw [if_neg hskip0] at h
        cases hc : caseData lowers uppers f0.name (stripData nostrips f0) with
        | error e =>
          rw [hc] at h
          exact Except.noConfusion h
        | ok data =>
          rw [hc] at h
          exact ih _ d f h hmem hskip hdata
            (fun g hg => hall g (List.mem_cons_of_mem _ hg))

/-- C9: a field that `parse_form` does not skip contributes an entry even
when its value is absent: provided no other (non-skipped) field shares its
output key, the output key is mapped to `None` rather than omitted. -/
theorem parse_form_stores_none (mro : Mro) (csrfCfg : Option String)
    (form : List FField) (now : Value) (d : List (String × Value)) (f : FField)
    (h : parse_form mro csrfCfg form false now = Except.ok d)
    (hf : f ∈ form)
    (hskip : ¬skipField
      (get_attrs_list mro (fun k => k.excludes) ++ [resolveCsrf csrfCfg]) f)
    (hdata : f.data = Value.none)
    (hall : ∀ g ∈ form,
      ¬skipField (get_attrs_list mro (fun k => k.excludes)
        ++ [resolveCsrf csrfCfg]) g →
      outKey (get_attrs_aliases mro) g = outKey (get_attrs_aliases mro) f →
      g.data = Value.none) :
    alookup d (outKey (get_attrs_aliases mro) f) = Option.some Value.none := by
  simp only [parse_form] at h
  cases hl : parse_form_loop (get_attrs_list mro (fun k => k.lowers))
      (get_attrs_list mro (fun k => k.uppers))
      (get_attrs_list mro (fun k => k.nostrips))
      (get_attrs_list mro (fun k => k.excludes) ++ [resolveCsrf csrfCfg])
      (get_attrs_aliases mro) form [] with
  | error e =>
    rw [hl] at h
    exact Except.noConfusion h
  | ok dct =>
    rw [hl] at h
    simp only [if_neg Bool.false_ne_true] at h
    rw [← Except.ok.inj h]
    exact parse_form_loop_stores_none _ _ _ _ _ form [] dct f hl hf hskip hdata hall

/-- Witness for C9: an optional integer field with absent data is stored as
`None` under its own name. -/
theorem parse_form_stores_none_witness :
    alookup [("age", Value.none)]
        (outKey (get_attrs_aliases []) ⟨"age", "IntegerField", Value.none⟩)
      = Option.some Value.none :=
  parse_form_stores_none [] Option.none [⟨"age", "IntegerField", Value.none⟩]
    Value.none [("age", Value.none)] ⟨"age", "IntegerField", Value.none⟩
    (by decide) (by decide) (by decide) rfl (by decide)

theorem alookup_eq_none_iff {α : Type} (d : List (String × α)) (k : String) :
    alookup d k = Option.none ↔ k ∉ keys d := by
  rw [← alookup_isSome_iff_mem_keys]
  cases alookup d k <;> simp

theorem parse_files_names_alookup (sanitize : String → String)
    (reqFiles : String → List UploadEntry) :
    ∀ (names : List String) (d : List (String × List FileInfo)) (x : String),
      alookup (parse_files_names sanitize reqFiles names d) x
        = if x ∈ names ∧ get_files sanitize (reqFiles x) ≠ [] then
            Option.some (get_files sanitize (reqFiles x))
          else alookup d x := by
  intro names
  induction names with
  | nil => intro d x; simp [parse_files_names]
  | cons n rest ih =>
    intro d x
    simp only [parse_files_names]
    rw [ih]
    by_cases hr : x ∈ rest ∧ get_files sanitize (reqFiles x) ≠ []
    · rw [if_pos hr, if_pos ⟨List.mem_cons_of_mem _ hr.1, hr.2⟩]
    · rw [if_neg hr]
      by_cases hx : x = n
      · subst hx
        by_cases hg : get_files sanitize (reqFiles x) = []
        · rw [if_pos hg, if_neg (fun hc => hc.2 hg)]
        · rw [if_neg hg, alookup_dictSet, if_pos rfl,
            if_pos ⟨List.mem_cons_self x rest, hg⟩]
      · have hcond : ¬(x ∈ n :: rest ∧ get_files sanitize (reqFiles x) ≠ []) := by
          rintro ⟨hm, hg⟩
          rcases List.mem_cons.mp hm with he | hm2
          · exact hx he
          · exact hr ⟨hm2, hg⟩
        rw [if_neg hcond]
        by_cases hg : get_files sanitize (reqFiles n) = []
        · rw [if_pos hg]
        · rw [if_neg hg, alookup_dictSet, if_neg hx]

theorem parse_files_fields_alookup (sanitize : String → String)
    (reqFiles : String → List UploadEntry) :
    ∀ (fields : List FField) (d : List (String × List FileInfo)) (x : String),
      alookup (parse_files_fields sanitize reqFiles fields d) x
        = if (∃ f, f ∈ fields ∧ f.name = x ∧ truthy f.data = true
                ∧ pyEndsWith f.ftype "FileField" = true)
              ∧ get_files sanitize (reqFiles x) ≠ [] then
            Option.some (get_files sanitize (reqFiles x))
          else alookup d x := by
  intro fields
  induction fields with
  | nil =>
    intro d x
    rw [if_neg (by rintro ⟨⟨f, hf, _⟩, _⟩; exact List.not_mem_nil f hf)]
    rfl
  | cons f0 rest ih =>
    intro d x
    have hsplit : (∃ f, f ∈ f0 :: rest ∧ f.name = x ∧ truthy f.data = true
          ∧ pyEndsWith f.ftype "FileField" = true)
        ↔ ((f0.name = x ∧ truthy f0.data = true
              ∧ pyEndsWith f0.ftype "FileField" = true)
            ∨ ∃ f, f ∈ rest ∧ f.name = x ∧ truthy f.data = true
              ∧ pyEndsWith f.ftype "FileField" = true) := by
      constructor
      · rintro ⟨f, hf, hrest⟩
        rcases List.mem_cons.mp hf with he | hm
        · exact Or.inl (he ▸ hrest)
        · exact Or.inr ⟨f, hm, hrest⟩
      · rintro (⟨h1, h2, h3⟩ | ⟨f, hm, hrest⟩)
        · exact ⟨f0, List.mem_cons_self _ _, h1, h2, h3⟩
        · exact ⟨f, List.mem_cons_of_mem _ hm, hrest⟩
    simp only [parse_files_fields]
    by_cases hr : (∃ f, f ∈ rest ∧ f.name = x ∧ truthy f.data = true
        ∧ pyEndsWith f.ftype "FileField" = true)
        ∧ get_files sanitize (reqFiles x) ≠ []
    · have hall : (∃ f, f ∈ f0 :: rest ∧ f.name = x ∧ truthy f.data = true
            ∧ pyEndsWith f.ftype "FileField" = true)
          ∧ get_files sanitize (reqFiles x) ≠ [] :=
        ⟨hsplit.mpr (Or.inr hr.1), hr.2⟩
      by_cases hcond : truthy f0.data = true ∧ pyEndsWith f0.ftype "FileField" = true
      · rw [if_pos hcond, ih, if_pos hr, if_pos hall]
      · rw [if_neg hcond, ih, if_pos hr, if_pos hall]
    · by_cases hcond : truthy f0.data = true ∧ pyEndsWith f0.ftype "FileField" = true
      · rw [if_pos hcond, ih, if_neg hr]
        by_cases hx : x = f0.name
        · by_cases hg : get_files sanitize (reqFiles x) = []
          · rw [show get_files sanitize (reqFiles f0.name) = [] from hx ▸ hg,
              if_pos rfl, if_neg (fun hc => hc.2 hg)]
          · rw [if_neg (show ¬get_files sanitize (reqFiles f0.name) = []
                from hx ▸ hg),
              alookup_dictSet, if_pos hx,
              if_pos ⟨hsplit.mpr (Or.inl ⟨hx.symm, hcond⟩), hg⟩, hx]
        · have hcond2 : ¬((∃ f, f ∈ f0 :: rest ∧ f.name = x ∧ truthy f.data = true
                ∧ pyEndsWith f.ftype "FileField" = true)
              ∧ get_files sanitize (reqFiles x) ≠ []) := by
            rintro ⟨hex, hg⟩
            rcases hsplit.mp hex with ⟨h1, _⟩ | hex2
            · exact hx h1.symm
            · exact hr ⟨hex2, hg⟩
          rw [if_neg hcond2]
          by_cases hg : get_files sanitize (reqFiles f0.name) = []
          · rw [if_pos hg]
          · rw [if_neg hg, alookup_dictSet, if_neg hx]
      · rw [if_neg hcond, ih, if_neg hr,
          if_neg (show ¬((∃ f, f ∈ f0 :: rest ∧ f.name = x ∧ truthy f.data = true
              ∧ pyEndsWith f.ftype "FileField" = true)
            ∧ get_files sanitize (reqFiles x) ≠ []) from by
            rintro ⟨hex, hg⟩
            rcases hsplit.mp hex with ⟨_, h2⟩ | hex2
            · exact hcond h2
            · exact hr ⟨hex2, hg⟩)]

theorem parse_files_alookup (sanitize : String → String)
    (reqFiles : String → List UploadEntry) (form : List FField)
    (names : List String) (x : String) :
    alookup (parse_files sanitize reqFiles form names) x
      = if ((∃ f, f ∈ form ∧ f.name = x ∧ truthy f.data = true
              ∧ pyEndsWith f.ftype "FileField" = true) ∨ x ∈ names)
            ∧ get_files sanitize (reqFiles x) ≠ [] then
          Option.some (get_files sanitize (reqFiles x))
        else Option.none := by
  unfold parse_files
  rw [parse_files_fields_alookup, parse_files_names_alookup]
  by_cases hg : get_files sanitize (reqFiles x) = []
  · rw [if_neg (fun hc => hc.2 hg), if_neg (fun hc => hc.2 hg),
      if_neg (fun hc => hc.2 hg)]
    rfl
  · by_cases hf : ∃ f, f ∈ form ∧ f.name = x ∧ truthy f.data = true
        ∧ pyEndsWith f.ftype "FileField" = true
    · rw [if_pos ⟨hf, hg⟩, if_pos ⟨Or.inl hf, hg⟩]
    · rw [if_neg (fun hc => hf hc.1)]
      by_cases hn : x ∈ names
      · rw [if_pos ⟨hn, hg⟩, if_pos ⟨Or.inr hn, hg⟩]
      · rw [if_neg (fun hc => hn hc.1), if_neg (by
          rintro ⟨hor, _⟩
          rcases hor with h1 | h2
          · exact hf h1
          · exact hn h2)]
        rfl

/-- C8: `parse_files` returns a mapping whose keys are drawn from the
requested names plus the fields whose type tag ends in `"FileField"` with
truthy data; a key from that candidate set appears iff its extracted
descriptor list is non-empty, and it maps to exactly that list. -/
theorem parse_files_spec (sanitize : String → String)
    (reqFiles : String → List UploadEntry) (form : List FField)
    (names : List String) :
    (∀ x ∈ keys (parse_files sanitize reqFiles form names),
        x ∈ names ∨ ∃ f, f ∈ form ∧ f.name = x ∧ truthy f.data = true
          ∧ pyEndsWith f.ftype "FileField" = true)
    ∧ (∀ x, (x ∈ names ∨ ∃ f, f ∈ form ∧ f.name = x ∧ truthy f.data = true
          ∧ pyEndsWith f.ftype "FileField" = true) →
        ((x ∈ keys (parse_files sanitize reqFiles form names)
            ↔ get_files sanitize (reqFiles x) ≠ [])
          ∧ (x ∈ keys (parse_files sanitize reqFiles form names) →
              alookup (parse_files sanitize reqFiles form names) x
                = Option.some (get_files sanitize (reqFiles x))))) := by
  have hmem : ∀ x : String,
      x ∈ keys (parse_files sanitize reqFiles form names)
        ↔ (((∃ f, f ∈ form ∧ f.name = x ∧ truthy f.data = true
              ∧ pyEndsWith f.ftype "FileField" = true) ∨ x ∈ names)
            ∧ get_files sanitize (reqFiles x) ≠ []) := by
    intro x
    rw [← alookup_isSome_iff_mem_keys, parse_files_alookup]
    by_cases h : ((∃ f, f ∈ form ∧ f.name = x ∧ truthy f.data = true
          ∧ pyEndsWith f.ftype "FileField" = true) ∨ x ∈ names)
        ∧ get_files sanitize (reqFiles x) ≠ []
    · simp [h]
    · simp [if_neg h, h]
  constructor
  · intro x hx
    rcases (hmem x).mp hx with ⟨hor, _⟩
    exact hor.symm
  · intro x hor
    constructor
    · constructor
      · intro hx
        exact ((hmem x).mp hx).2
      · intro hg
        exact (hmem x).mpr ⟨hor.symm, hg⟩
    · intro hx
      rw [parse_files_alookup, if_pos ⟨hor.symm, ((hmem x).mp hx).2⟩]

/-- Witness for C8 at a concrete request carrying one upload under a
requested name. -/
theorem parse_files_spec_witness :
    (("pics" ∈ keys (parse_files (fun s => s)
        (fun n => if n = "pics" then [⟨"a.txt", 0⟩] else [])
        [] ["pics"])
      ↔ get_files (fun s => s)
          ((fun n => if n = "pics" then [⟨"a.txt", 0⟩] else []) "pics") ≠ [])
    ∧ ("pics" ∈ keys (parse_files (fun s => s)
        (fun n => if n = "pics" then [⟨"a.txt", 0⟩] else [])
        [] ["pics"]) →
      alookup (parse_files (fun s => s)
          (fun n => if n = "pics" then [⟨"a.txt", 0⟩] else [])
          [] ["pics"]) "pics"
        = Option.some (get_files (fun s => s)
            ((fun n => if n = "pics" then [⟨"a.txt", 0⟩] else []) "pics")))) :=
  (parse_files_spec (fun s => s)
      (fun n => if n = "pics" then [⟨"a.txt", 0⟩] else []) [] ["pics"]).2
    "pics" (Or.inl (by decide))

end FlaskWtfTop
